import Mathlib

/-!
# Verification of the elliptic-curve / modular-form visualizer core

Shallow embedding of the mathematical core of the repository
(`elliptic_curve.py`, `elliptic_curve1.1.py`): the Weierstrass curve model
`y² = x³ + a·x + b`, its discriminant and j-invariant (closed form and
q-expansion), the Eisenstein-series mapping from a modular parameter τ to
Weierstrass coefficients, the j-invariant field sampler, and the
parameter-update handler of the interactive UI.

Python floats and complexes are modelled by `ℝ` and `ℂ`; the float
`inf` sentinel returned by `j_invariant` on a singular curve is modelled
by an explicit constructor.  Division in Lean is total (`x / 0 = 0`),
which matters only where the Python code itself divides by zero.
-/

open Real Complex

/-- The curve model: `y² = x³ + a·x + b` (class `EllipticCurve`, fields
`self.a`, `self.b`). -/
structure EllipticCurve where
  a : ℝ
  b : ℝ

/-- Result of the `j_invariant` method: the q-expansion branch returns a
complex number, the Weierstrass branch returns a real number or the
`float('inf')` sentinel used for singular curves. -/
inductive JOut where
  | cplx : ℂ → JOut
  | inf : JOut
  | val : ℝ → JOut

instance : Inhabited JOut := ⟨JOut.inf⟩

/-- `get_y_values` (both files, lines 15–23): for a given `x` return
`[+√(x³+ax+b), −√(x³+ax+b)]` when `x³+ax+b ≥ 0`, else the empty list. -/
noncomputable def EllipticCurve.get_y_values (c : EllipticCurve) (x : ℝ) : List ℝ :=
  let y_squared := x ^ 3 + c.a * x + c.b
  if 0 ≤ y_squared then [Real.sqrt y_squared, -Real.sqrt y_squared] else []

/-- `discriminant` (both files, lines 67–71): `Δ = −16(4a³ + 27b²)`. -/
def EllipticCurve.discriminant (c : EllipticCurve) : ℝ :=
  -16 * (4 * c.a ^ 3 + 27 * c.b ^ 2)

/-- `q = exp(2πiτ)` as computed at `elliptic_curve1.1.py` lines 84 and 101. -/
noncomputable def q_of (tau : ℂ) : ℂ :=
  Complex.exp (2 * (Real.pi : ℂ) * Complex.I * tau)

/-- Truncated Eisenstein series `E4 = 1 + 240q + 2160q²`
(`elliptic_curve1.1.py` line 103). -/
noncomputable def E4_of (tau : ℂ) : ℂ :=
  1 + 240 * q_of tau + 2160 * (q_of tau) ^ 2

/-- Truncated Eisenstein series `E6 = 1 − 504q − 16632q²`
(`elliptic_curve1.1.py` line 104). -/
noncomputable def E6_of (tau : ℂ) : ℂ :=
  1 - 504 * q_of tau - 16632 * (q_of tau) ^ 2

/-- `j_invariant` (`elliptic_curve1.1.py` lines 73–94).  The optional `tau`
argument selects the q-expansion branch (`1/q + 744 + 196884q + 21493760q²`);
without it the Weierstrass branch returns `float('inf')` when `Δ = 0` and
`−1728·4a³/Δ` otherwise. -/
noncomputable def EllipticCurve.j_invariant (c : EllipticCurve) (tau : Option ℂ) : JOut :=
  match tau with
  | some t =>
      JOut.cplx (1 / q_of t + 744 + 196884 * q_of t + 21493760 * (q_of t) ^ 2)
  | none =>
      if c.discriminant = 0 then JOut.inf
      else JOut.val (-1728 * (4 * c.a ^ 3) / c.discriminant)

/-- `get_elliptic_curve_params` (`elliptic_curve1.1.py` lines 96–110): from τ
compute `q`, `E4`, `E6`, then `a = −27E4/(4E6)`, `b = −27(E4³−E6²)/(4E6²)`,
returning the real parts (`float(a.real), float(b.real)`).  The Python
method takes `self` but never reads it.  There is no check on `E6 = 0`:
the divisions are performed unconditionally. -/
noncomputable def get_elliptic_curve_params (tau : ℂ) : ℝ × ℝ :=
  ((-27 * E4_of tau / (4 * E6_of tau)).re,
   (-27 * ((E4_of tau) ^ 3 - (E6_of tau) ^ 2) / (4 * (E6_of tau) ^ 2)).re)

/-- One cell of the j-invariant field (`elliptic_curve1.1.py` lines 126–134):
map τ to curve parameters, recompute the discriminant inline, and store
either `−1728·4a³/Δ` or the `float('inf')` sentinel. -/
noncomputable def field_cell (tau : ℂ) : JOut :=
  let p := get_elliptic_curve_params tau
  let discriminant := -16 * (4 * p.1 ^ 3 + 27 * p.2 ^ 2)
  if discriminant ≠ 0 then JOut.val (-1728 * (4 * p.1 ^ 3) / discriminant)
  else JOut.inf

/-- `np.linspace lo hi n` evaluated at index `k`: `lo + (hi−lo)·k/(n−1)`
(for `n = 1` the division by zero yields `lo`, matching numpy). -/
noncomputable def linspace (lo hi : ℝ) (n k : ℕ) : ℝ :=
  lo + (hi - lo) * k / ((n : ℝ) - 1)

/-- Grid point `tau[j,i] = x[i] + i·y[j]` of `plot_modular_form`
(`elliptic_curve1.1.py` lines 117–120), with `x = linspace(−3,3,nx)` and
`y = linspace(0.1,3,ny)` (the source fixes `nx = ny = 40`). -/
noncomputable def tau_grid (nx ny i j : ℕ) : ℂ :=
  (linspace (-3) 3 nx i : ℂ) + Complex.I * (linspace 0.1 3 ny j : ℂ)

/-- The full field `Z` of `plot_modular_form` (`elliptic_curve1.1.py`
lines 117–134), row `j`, column `i`, parametrised by the requested
resolution (the source hard-codes 40×40). -/
noncomputable def plot_modular_form_grid (nx ny : ℕ) : List (List JOut) :=
  (List.range ny).map fun j => (List.range nx).map fun i => field_cell (tau_grid nx ny i j)

/-- `update_plot` (`elliptic_curve1.1.py` lines 232–253).  The two text-box
contents are modelled by their parse results: `some v` when `float(text)`
succeeds, `none` when it raises `ValueError`.  The Python body assigns
`self.a = float(text_a)` first and `self.b = float(text_b)` second inside a
single `try`, so a failure on `a` leaves both fields, while a failure on
`b` happens after `a` was already overwritten. -/
def update_plot (st : ℝ × ℝ) (ta tb : Option ℝ) : ℝ × ℝ :=
  match ta with
  | none => st
  | some va =>
      match tb with
      | none => (va, st.2)
      | some vb => (va, vb)

/-! ## Claims -/

/-- C1: for every (a, b) with Δ(a,b) ≠ 0 the Weierstrass branch of
`j_invariant` returns exactly `−1728·4a³/Δ(a,b)`; for the fixture
a = −1, b = 0 the discriminant is 64 and the j-invariant is 108. -/
theorem j_invariant_weierstrass_formula :
    (∀ a b : ℝ, (EllipticCurve.mk a b).discriminant ≠ 0 →
      (EllipticCurve.mk a b).j_invariant none =
        JOut.val (-1728 * (4 * a ^ 3) / (EllipticCurve.mk a b).discriminant)) ∧
    (EllipticCurve.mk (-1) 0).discriminant = 64 ∧
    (EllipticCurve.mk (-1) 0).j_invariant none = JOut.val 108 := by
  refine ⟨fun a b h => ?_, by norm_num [EllipticCurve.discriminant], ?_⟩
  · simp only [EllipticCurve.j_invariant, if_neg h]
  · have h64 : (EllipticCurve.mk (-1) 0).discriminant = 64 := by
      norm_num [EllipticCurve.discriminant]
    simp only [EllipticCurve.j_invariant, h64]
    norm_num

/-- Witness for C1 at the fixture a = −1, b = 0. -/
theorem j_invariant_weierstrass_formula_witness :
    (EllipticCurve.mk (-1) 0).discriminant ≠ 0 ∧
    (EllipticCurve.mk (-1) 0).j_invariant none =
      JOut.val (-1728 * (4 * (-1 : ℝ) ^ 3) / (EllipticCurve.mk (-1) 0).discriminant) :=
  ⟨by norm_num [EllipticCurve.discriminant],
   j_invariant_weierstrass_formula.1 (-1) 0 (by norm_num [EllipticCurve.discriminant])⟩

/-- C3: the q-expansion branch of `j_invariant` is total: for every state
and every τ it returns the complex value `1/q + 744 + 196884q + 21493760q²`
with `q = exp(2πiτ)`, and `q` is never zero. -/
theorem j_invariant_q_expansion_total (c : EllipticCurve) (tau : ℂ) :
    q_of tau ≠ 0 ∧
    c.j_invariant (some tau) =
      JOut.cplx (1 / q_of tau + 744 + 196884 * q_of tau + 21493760 * (q_of tau) ^ 2) :=
  ⟨Complex.exp_ne_zero _, rfl⟩

/-- C4: whenever Δ(a,b) = 0 exactly — for instance the cusp curve
a = 0, b = 0 — the Weierstrass branch of `j_invariant` returns the
explicit infinite sentinel rather than raising. -/
theorem j_invariant_singular_sentinel :
    (∀ a b : ℝ, (EllipticCurve.mk a b).discriminant = 0 →
      (EllipticCurve.mk a b).j_invariant none = JOut.inf) ∧
    (EllipticCurve.mk 0 0).discriminant = 0 := by
  refine ⟨fun a b h => ?_, by norm_num [EllipticCurve.discriminant]⟩
  simp only [EllipticCurve.j_invariant, if_pos h]

/-- Witness for C4 at the cusp curve a = 0, b = 0. -/
theorem j_invariant_singular_sentinel_witness :
    (EllipticCurve.mk 0 0).discriminant = 0 ∧
    (EllipticCurve.mk 0 0).j_invariant none = JOut.inf :=
  ⟨by norm_num [EllipticCurve.discriminant],
   j_invariant_singular_sentinel.1 0 0 (by norm_num [EllipticCurve.discriminant])⟩

/-- C6: `get_y_values` returns `[+√(x³+ax+b), −√(x³+ax+b)]` (in that
order) when `x³+ax+b ≥ 0`, the two-element list `[0, 0]` in the
degenerate case `x³+ax+b = 0`, and the empty list when `x³+ax+b < 0`. -/
theorem get_y_values_cases (c : EllipticCurve) (x : ℝ) :
    (0 ≤ x ^ 3 + c.a * x + c.b →
      c.get_y_values x =
        [Real.sqrt (x ^ 3 + c.a * x + c.b), -Real.sqrt (x ^ 3 + c.a * x + c.b)]) ∧
    (x ^ 3 + c.a * x + c.b = 0 → c.get_y_values x = [0, 0]) ∧
    (x ^ 3 + c.a * x + c.b < 0 → c.get_y_values x = []) := by
  refine ⟨fun h => ?_, fun h => ?_, fun h => ?_⟩
  · simp only [EllipticCurve.get_y_values, if_pos h]
  · simp only [EllipticCurve.get_y_values, h, if_pos le_rfl, Real.sqrt_zero, neg_zero]
  · simp only [EllipticCurve.get_y_values, if_neg (not_le.mpr h)]

/-- Witness for C6: the fixture curve a = −1, b = 0 at x = 2 has
y² = 6 ≥ 0 and yields the two square roots. -/
theorem get_y_values_cases_witness :
    (0 : ℝ) ≤ 2 ^ 3 + (-1) * 2 + 0 ∧
    (EllipticCurve.mk (-1) 0).get_y_values 2 =
      [Real.sqrt (2 ^ 3 + (-1) * 2 + 0), -Real.sqrt (2 ^ 3 + (-1) * 2 + 0)] :=
  ⟨by norm_num, (get_y_values_cases (EllipticCurve.mk (-1) 0) 2).1 (by norm_num)⟩

/-- C7 counterexample: with previous state (a,b) = (−1,0), numeric text
"2" for a and non-numeric text for b, `update_plot` leaves the model at
(2, 0): the field a HAS been altered, so the update is not rejected as a
whole. -/
theorem update_plot_not_atomic :
    update_plot (-1, 0) (some 2) none = (2, 0) ∧
    ((2 : ℝ), (0 : ℝ)) ≠ ((-1 : ℝ), (0 : ℝ)) := by
  refine ⟨rfl, ?_⟩
  norm_num [Prod.ext_iff]

/-- C7 amended: if the text for `a` is non-numeric nothing is altered;
if `a` parses but `b` is non-numeric, `a` is overwritten with the new
value and only `b` is retained; if both parse both are replaced. -/
theorem update_plot_semantics (st : ℝ × ℝ) (v w : ℝ) (tb : Option ℝ) :
    update_plot st none tb = st ∧
    update_plot st (some v) none = (v, st.2) ∧
    update_plot st (some v) (some w) = (v, w) :=
  ⟨rfl, rfl, rfl⟩

/-- C10: the q-expansion branch of `j_invariant` is independent of the
stored curve state: any two states give the identical value at every τ. -/
theorem j_invariant_tau_state_independent (c₁ c₂ : EllipticCurve) (tau : ℂ) :
    c₁.j_invariant (some tau) = c₂.j_invariant (some tau) :=
  rfl

/-- C2: `get_elliptic_curve_params` computes `q = exp(2πiτ)`, the truncated
series `E4 = 1 + 240q + 2160q²` and `E6 = 1 − 504q − 16632q²`, then
`a = −27E4/(4E6)` and `b = −27(E4³−E6²)/(4E6²)`, and returns the real
parts of `a` and `b`, for every τ with `E6(τ) ≠ 0`. -/
theorem get_elliptic_curve_params_formula (tau : ℂ) (h : E6_of tau ≠ 0) :
    q_of tau = Complex.exp (2 * (Real.pi : ℂ) * Complex.I * tau) ∧
    E4_of tau = 1 + 240 * q_of tau + 2160 * (q_of tau) ^ 2 ∧
    E6_of tau = 1 - 504 * q_of tau - 16632 * (q_of tau) ^ 2 ∧
    get_elliptic_curve_params tau =
      ((-27 * E4_of tau / (4 * E6_of tau)).re,
       (-27 * ((E4_of tau) ^ 3 - (E6_of tau) ^ 2) / (4 * (E6_of tau) ^ 2)).re) :=
  ⟨rfl, rfl, rfl, rfl⟩

/-- Witness for C2 at τ = 0, where `q = 1` and `E6 = −17135 ≠ 0`. -/
theorem get_elliptic_curve_params_formula_witness :
    E6_of 0 ≠ 0 ∧
    get_elliptic_curve_params 0 =
      ((-27 * E4_of 0 / (4 * E6_of 0)).re,
       (-27 * ((E4_of 0) ^ 3 - (E6_of 0) ^ 2) / (4 * (E6_of 0) ^ 2)).re) := by
  have h : E6_of 0 ≠ 0 := by
    simp only [E6_of, q_of, mul_zero, Complex.exp_zero]
    norm_num
  exact ⟨h, (get_elliptic_curve_params_formula 0 h).2.2.2⟩

/-- C8: the field grid has exactly the requested dimensions (ny rows of nx
cells) regardless of how many cells are undefined; each cell is computed
independently from its own τ, and a cell whose recomputed discriminant is
zero holds the infinite sentinel while every other cell holds the finite
j-value. -/
theorem plot_modular_form_grid_shape (nx ny : ℕ) :
    (plot_modular_form_grid nx ny).length = ny ∧
    (plot_modular_form_grid nx ny).map List.length = List.replicate ny nx ∧
    (∀ tau : ℂ, field_cell tau =
      if -16 * (4 * (get_elliptic_curve_params tau).1 ^ 3 +
            27 * (get_elliptic_curve_params tau).2 ^ 2) ≠ 0
       then JOut.val (-1728 * (4 * (get_elliptic_curve_params tau).1 ^ 3) /
              (-16 * (4 * (get_elliptic_curve_params tau).1 ^ 3 +
                27 * (get_elliptic_curve_params tau).2 ^ 2)))
       else JOut.inf) ∧
    ∀ j i, j < ny → i < nx →
      ((plot_modular_form_grid nx ny)[j]!)[i]! = field_cell (tau_grid nx ny i j) := by
  refine ⟨by simp [plot_modular_form_grid], ?_, fun tau => rfl, fun j i hj hi => ?_⟩
  · simp [plot_modular_form_grid, List.map_map, Function.comp_def, List.eq_replicate_iff]
  · have hj' : j < (plot_modular_form_grid nx ny).length := by
      simpa [plot_modular_form_grid] using hj
    rw [getElem!_pos (plot_modular_form_grid nx ny) j hj']
    simp only [plot_modular_form_grid, List.getElem_map, List.getElem_range]
    have hi' : i < ((List.range nx).map
        fun k => field_cell (tau_grid nx ny k j)).length := by simpa using hi
    rw [getElem!_pos ((List.range nx).map fun k => field_cell (tau_grid nx ny k j)) i hi']
    simp

/-- Witness for C8 at the requested resolution 1 × 1. -/
theorem plot_modular_form_grid_shape_witness :
    (plot_modular_form_grid 1 1).length = 1 ∧
    (plot_modular_form_grid 1 1).map List.length = List.replicate 1 1 ∧
    ((plot_modular_form_grid 1 1)[0]!)[0]! = field_cell (tau_grid 1 1 0 0) :=
  ⟨(plot_modular_form_grid_shape 1 1).1,
   (plot_modular_form_grid_shape 1 1).2.1,
   (plot_modular_form_grid_shape 1 1).2.2.2 0 0 (by decide) (by decide)⟩

/-- The positive real root of the truncated series
`E6(q) = 1 − 504q − 16632q²`, namely `q = (−504 + √320544)/33264 ≈ 0.0018686`. -/
noncomputable def qE6zero : ℝ := (-504 + Real.sqrt 320544) / 33264

/-- A concrete modular parameter τ ≈ 0.99997i (inside the upper half-plane)
with `exp(2πiτ) = qE6zero`, hence `E6(τ) = 0`. -/
noncomputable def tauE6zero : ℂ :=
  Complex.log ((qE6zero : ℝ) : ℂ) / (2 * (Real.pi : ℂ) * Complex.I)

theorem qE6zero_pos : 0 < qE6zero := by
  have h : (504 : ℝ) < Real.sqrt 320544 := by
    rw [show (504 : ℝ) = Real.sqrt (504 ^ 2) by
      rw [Real.sqrt_sq (by norm_num)]]
    exact Real.sqrt_lt_sqrt (by positivity) (by norm_num)
  unfold qE6zero
  have h' : (0 : ℝ) < -504 + Real.sqrt 320544 := by linarith
  exact div_pos h' (by norm_num)

theorem q_of_tauE6zero : q_of tauE6zero = (qE6zero : ℂ) := by
  have hne : (2 * (Real.pi : ℂ) * Complex.I) ≠ 0 := by
    simp [Real.pi_ne_zero, Complex.I_ne_zero]
  have hq : ((qE6zero : ℝ) : ℂ) ≠ 0 := by
    exact_mod_cast qE6zero_pos.ne'
  unfold q_of tauE6zero
  rw [mul_comm, div_mul_cancel₀ _ hne, Complex.exp_log hq]

theorem E6_of_tauE6zero : E6_of tauE6zero = 0 := by
  have hreal : (1 : ℝ) - 504 * qE6zero - 16632 * qE6zero ^ 2 = 0 := by
    have hs : Real.sqrt 320544 ^ 2 = 320544 := Real.sq_sqrt (by norm_num)
    unfold qE6zero
    field_simp
    nlinarith [hs]
  rw [E6_of, q_of_tauE6zero]
  calc (1 : ℂ) - 504 * (qE6zero : ℂ) - 16632 * (qE6zero : ℂ) ^ 2
      = ((1 - 504 * qE6zero - 16632 * qE6zero ^ 2 : ℝ) : ℂ) := by push_cast; ring
    _ = 0 := by rw [hreal]; rfl

/-- C5 (code bug): at the concrete τ `tauE6zero` the truncated series E6
vanishes, yet `get_elliptic_curve_params` signals nothing: its codomain is
a plain pair and it returns an ordinary value obtained by dividing by zero
(the Python code divides by `4*E6 = 0` unconditionally, producing nan/inf
floats that propagate silently; in this embedding division by zero yields
the pair (0, 0)). -/
theorem get_elliptic_curve_params_no_error_signal :
    E6_of tauE6zero = 0 ∧ get_elliptic_curve_params tauE6zero = (0, 0) := by
  refine ⟨E6_of_tauE6zero, ?_⟩
  simp [get_elliptic_curve_params, E6_of_tauE6zero]

/-- The nome at τ = 2i: `q = exp(2πi·2i) = exp(−4π) ≈ 3.487·10⁻⁶`. -/
noncomputable def qTwoI : ℝ := Real.exp (-(4 * Real.pi))

theorem q_of_twoI : q_of (2 * Complex.I) = ((qTwoI : ℝ) : ℂ) := by
  have harg : (2 * (Real.pi : ℂ) * Complex.I * (2 * Complex.I)) =
      ((-(4 * Real.pi) : ℝ) : ℂ) := by
    rw [show (2 * (Real.pi : ℂ) * Complex.I * (2 * Complex.I))
        = 4 * (Real.pi : ℂ) * (Complex.I * Complex.I) by ring, Complex.I_mul_I]
    push_cast
    ring
  rw [q_of, harg, ← Complex.ofReal_exp]
  rfl

theorem qTwoI_pos : 0 < qTwoI := Real.exp_pos _

theorem exp_four_pi_large : (250000 : ℝ) < Real.exp (4 * Real.pi) := by
  have h1 : (12.56 : ℝ) ≤ 4 * Real.pi := by nlinarith [Real.pi_gt_d6]
  have h2 : Real.exp 12.56 ≤ Real.exp (4 * Real.pi) := Real.exp_le_exp.mpr h1
  have h3 : Real.exp 12.56 = Real.exp 12 * Real.exp 0.56 := by
    rw [← Real.exp_add]; norm_num
  have h4 : Real.exp 12 = Real.exp 1 ^ (12 : ℕ) := by
    rw [← Real.exp_nat_mul]; norm_num
  have h5 : (2.7182818283 : ℝ) ^ (12 : ℕ) ≤ Real.exp 1 ^ (12 : ℕ) := by
    gcongr
    exact Real.exp_one_gt_d9.le
  have h6 : (1.56 : ℝ) ≤ Real.exp 0.56 := by
    have := Real.add_one_le_exp (0.56 : ℝ)
    linarith
  have h7 : (250000 : ℝ) < (2.7182818283 : ℝ) ^ (12 : ℕ) * 1.56 := by norm_num
  have h8 : (2.7182818283 : ℝ) ^ (12 : ℕ) * 1.56 ≤ Real.exp 1 ^ (12 : ℕ) * Real.exp 0.56 :=
    mul_le_mul h5 h6 (by norm_num) (by positivity)
  calc (250000 : ℝ) < (2.7182818283 : ℝ) ^ (12 : ℕ) * 1.56 := h7
    _ ≤ Real.exp 1 ^ (12 : ℕ) * Real.exp 0.56 := h8
    _ = Real.exp 12.56 := by rw [h3, h4]
    _ ≤ Real.exp (4 * Real.pi) := h2

theorem qTwoI_small : qTwoI < 1 / 250000 := by
  have hE := exp_four_pi_large
  have hEpos : 0 < Real.exp (4 * Real.pi) := Real.exp_pos _
  have hinv : (Real.exp (4 * Real.pi))⁻¹ * Real.exp (4 * Real.pi) = 1 :=
    inv_mul_cancel₀ hEpos.ne'
  have hq : qTwoI = (Real.exp (4 * Real.pi))⁻¹ := by rw [qTwoI, Real.exp_neg]
  have hipos : 0 < (Real.exp (4 * Real.pi))⁻¹ := inv_pos.mpr hEpos
  have key := mul_pos hipos (show (0 : ℝ) < Real.exp (4 * Real.pi) - 250000 by linarith)
  rw [hq]
  nlinarith [key, hinv]

/-- Real value of the truncated E4 series at τ = 2i. -/
noncomputable def E4r : ℝ := 1 + 240 * qTwoI + 2160 * qTwoI ^ 2

/-- Real value of the truncated E6 series at τ = 2i. -/
noncomputable def E6r : ℝ := 1 - 504 * qTwoI - 16632 * qTwoI ^ 2

/-- The `a` coefficient produced by `get_elliptic_curve_params` at τ = 2i. -/
noncomputable def aTwoI : ℝ := -27 * E4r / (4 * E6r)

/-- The `b` coefficient produced by `get_elliptic_curve_params` at τ = 2i. -/
noncomputable def bTwoI : ℝ := -27 * (E4r ^ 3 - E6r ^ 2) / (4 * E6r ^ 2)

theorem params_twoI : get_elliptic_curve_params (2 * Complex.I) = (aTwoI, bTwoI) := by
  have ha : -27 * E4_of (2 * Complex.I) / (4 * E6_of (2 * Complex.I)) =
      ((aTwoI : ℝ) : ℂ) := by
    unfold E4_of E6_of aTwoI E4r E6r
    rw [q_of_twoI]
    push_cast
    ring
  have hb : -27 * ((E4_of (2 * Complex.I)) ^ 3 - (E6_of (2 * Complex.I)) ^ 2) /
      (4 * (E6_of (2 * Complex.I)) ^ 2) = ((bTwoI : ℝ) : ℂ) := by
    unfold E4_of E6_of bTwoI E4r E6r
    rw [q_of_twoI]
    push_cast
    ring
  unfold get_elliptic_curve_params
  rw [ha, hb, Complex.ofReal_re, Complex.ofReal_re]

theorem qTwoI_sq_small : qTwoI ^ 2 < (1 / 250000 : ℝ) ^ 2 := by
  have h0 := qTwoI_pos
  have h1 := qTwoI_small
  nlinarith

theorem E4r_bounds : 1 < E4r ∧ E4r < 1.001 := by
  have h0 := qTwoI_pos
  have h1 := qTwoI_small
  have h2 := qTwoI_sq_small
  have h3 : 0 < qTwoI ^ 2 := by positivity
  constructor <;> (unfold E4r; nlinarith)

theorem E6r_bounds : 0.997 < E6r ∧ E6r < 1 := by
  have h0 := qTwoI_pos
  have h1 := qTwoI_small
  have h2 := qTwoI_sq_small
  have h3 : 0 < qTwoI ^ 2 := by positivity
  constructor <;> (unfold E6r; nlinarith)

theorem aTwoI_bounds : -7 < aTwoI ∧ aTwoI < -3 := by
  obtain ⟨hE4g, hE4l⟩ := E4r_bounds
  obtain ⟨hE6g, hE6l⟩ := E6r_bounds
  have hden : (0 : ℝ) < 4 * E6r := by linarith
  constructor
  · unfold aTwoI
    rw [lt_div_iff hden]
    nlinarith
  · unfold aTwoI
    rw [div_lt_iff hden]
    nlinarith

theorem bTwoI_bounds : -0.1 < bTwoI ∧ bTwoI ≤ 0 := by
  obtain ⟨hE4g, hE4l⟩ := E4r_bounds
  obtain ⟨hE6g, hE6l⟩ := E6r_bounds
  have hE4sq : E4r ^ 2 < 1.001 ^ 2 := by nlinarith
  have hE4cube : E4r ^ 3 < 1.001 ^ 3 := by nlinarith
  have hE6sq : E6r ^ 2 > 0.997 ^ 2 := by nlinarith
  have hE6sq' : E6r ^ 2 < 1 := by nlinarith
  have hD : 0 < E4r ^ 3 - E6r ^ 2 := by nlinarith
  have hD' : E4r ^ 3 - E6r ^ 2 < 0.009 := by nlinarith
  have hden : (0 : ℝ) < 4 * E6r ^ 2 := by nlinarith
  constructor
  · unfold bTwoI
    rw [lt_div_iff hden]
    nlinarith
  · unfold bTwoI
    apply div_nonpos_of_nonpos_of_nonneg <;> nlinarith

/-- C9 (code bug): the two j-computation paths do NOT agree at τ = 2i.
The q-expansion branch exceeds 250744 (it behaves like 1/q → ∞ as
Im τ grows) while `j_from_weierstrass` applied to `curve_params(2i)` lies
in (0, 216) (the code's Eisenstein-to-Weierstrass normalization sends every
τ with large Im τ to a curve with j ≈ 108), so the two values differ by
more than 250000 — no loose tolerance reconciles them. -/
theorem j_roundtrip_fails_at_twoI :
    ∃ z : ℂ, ∃ w : ℝ,
      (EllipticCurve.mk (get_elliptic_curve_params (2 * Complex.I)).1
          (get_elliptic_curve_params (2 * Complex.I)).2).j_invariant
        (some (2 * Complex.I)) = JOut.cplx z ∧
      (EllipticCurve.mk (get_elliptic_curve_params (2 * Complex.I)).1
          (get_elliptic_curve_params (2 * Complex.I)).2).j_invariant
        none = JOut.val w ∧
      0 < w ∧ w < 216 ∧ 250000 < Complex.abs (z - (w : ℂ)) := by
  obtain ⟨hag, hal⟩ := aTwoI_bounds
  obtain ⟨hbg, hbl⟩ := bTwoI_bounds
  have hq0 := qTwoI_pos
  have hq1 := qTwoI_small
  have hquad1 : 0 < aTwoI ^ 2 - 3 * aTwoI + 9 := by nlinarith [sq_nonneg (aTwoI - 3 / 2)]
  have hprod1 : 0 < (-3 - aTwoI) * (aTwoI ^ 2 - 3 * aTwoI + 9) :=
    mul_pos (by linarith) hquad1
  have hN1 : 4 * aTwoI ^ 3 < -108 := by nlinarith [hprod1]
  have hquad2 : 0 < aTwoI ^ 2 - 7 * aTwoI + 49 := by nlinarith [sq_nonneg (aTwoI - 7 / 2)]
  have hprod2 : 0 < (aTwoI + 7) * (aTwoI ^ 2 - 7 * aTwoI + 49) :=
    mul_pos (by linarith) hquad2
  have hN2 : -1372 < 4 * aTwoI ^ 3 := by nlinarith [hprod2]
  have hM1 : 0 ≤ 27 * bTwoI ^ 2 := by positivity
  have hM2 : 27 * bTwoI ^ 2 < 0.27 := by nlinarith
  have hdisc : (EllipticCurve.mk aTwoI bTwoI).discriminant =
      -16 * (4 * aTwoI ^ 3 + 27 * bTwoI ^ 2) := rfl
  have hdiscpos : 0 < (EllipticCurve.mk aTwoI bTwoI).discriminant := by
    rw [hdisc]; nlinarith
  have hdne : (EllipticCurve.mk aTwoI bTwoI).discriminant ≠ 0 := hdiscpos.ne'
  rw [params_twoI]
  refine ⟨((1 / qTwoI + 744 + 196884 * qTwoI + 21493760 * qTwoI ^ 2 : ℝ) : ℂ),
    -1728 * (4 * aTwoI ^ 3) / (EllipticCurve.mk aTwoI bTwoI).discriminant,
    ?_, ?_, ?_, ?_, ?_⟩
  · show JOut.cplx _ = JOut.cplx _
    congr 1
    rw [q_of_twoI]
    push_cast
    ring
  · show (EllipticCurve.mk aTwoI bTwoI).j_invariant none = _
    simp only [EllipticCurve.j_invariant, if_neg hdne]
  · refine div_pos ?_ hdiscpos
    nlinarith
  · rw [div_lt_iff hdiscpos, hdisc]
    nlinarith
  · rw [← Complex.ofReal_sub, Complex.abs_ofReal]
    have hinvq : (250000 : ℝ) < 1 / qTwoI := by
      rw [lt_div_iff qTwoI_pos]
      nlinarith
    have hterm1 : 0 < 196884 * qTwoI := by positivity
    have hterm2 : (0 : ℝ) ≤ 21493760 * qTwoI ^ 2 := by positivity
    have hwlt : -1728 * (4 * aTwoI ^ 3) / (EllipticCurve.mk aTwoI bTwoI).discriminant
        < 216 := by
      rw [div_lt_iff hdiscpos, hdisc]
      nlinarith
    have hwpos : 0 < -1728 * (4 * aTwoI ^ 3) /
        (EllipticCurve.mk aTwoI bTwoI).discriminant := by
      refine div_pos ?_ hdiscpos
      nlinarith
    rw [abs_of_pos (by linarith)]
    linarith
